import Mathlib

/-!
Verification of the Med_Vault document ingestion and structured-analysis
pipeline (`UploadDocumentModal`: `extractTextFromPdf`, `runGeminiAnalysis`
result handling, `handleFileChange`, `handleUpload`).

The TypeScript source is shallowly embedded:
* pure string manipulation (trimming, fence stripping, markdown removal,
  title squashing, category keywords) is translated function by function;
* `JSON.parse` is modelled by an executable recursive-descent JSON parser
  (`jsonParse`) over a fuel parameter (the fuel is always sufficient for
  the trimmed input by construction and only exists to make the recursion
  structural); JSON numbers are kept as their source lexeme, since no part
  of the pipeline under verification inspects numeric values;
* the external services (pdf.js extraction backend, the Gemini endpoint,
  Supabase storage, Firestore) are modelled by the outcome each call can
  produce, supplied in a `PipelineEnv` record; `handleUpload` is the
  orchestration function over those outcomes, returning which effects ran
  and which record (if any) was handed to / persisted by the database;
* the parsed analysis object is modelled at the type the source itself
  declares for it (`interface GeminiAnalysis`, all fields optional); JSON
  documents that are not objects of that shape are treated as analyses
  that produce no usable record.  Fields such as `processedAt`,
  `uploadedAt`, `createdAt` (wall-clock timestamps) are outside the model.
-/

/-! ### Generic character/string helpers (JS string primitives) -/

/-- Whitespace recognised by the model of JS `trim` and the JSON grammar
(space, tab, newline, carriage return). -/
def isWsJs (c : Char) : Bool := c = ' ' || c = '\t' || c = '\n' || c = '\r'

/-- Drop leading whitespace from a character list. -/
def wsDropLead (l : List Char) : List Char := List.dropWhile isWsJs l

/-- Drop trailing whitespace from a character list. -/
def wsDropEnd (l : List Char) : List Char := (List.dropWhile isWsJs l.reverse).reverse

/-- Model of JS `String.prototype.trim` on character lists. -/
def jsTrimL (l : List Char) : List Char := wsDropLead (wsDropEnd l)

/-- Model of JS `String.prototype.trim`. -/
def jsTrimS (s : String) : String := ⟨jsTrimL s.data⟩

/-- Boolean prefix test on character lists: `startsL p l` holds when `p`
is a prefix of `l` (model of JS `startsWith` after taking `.data`). -/
def startsL : List Char → List Char → Bool
  | [], _ => true
  | _ :: _, [] => false
  | p :: ps, c :: cs => p == c && startsL ps cs

/-- Model of JS `String.prototype.startsWith`. -/
def strStarts (s pat : String) : Bool := startsL pat.data s.data

/-- Boolean substring search: `hasSub pat l` holds when `pat` occurs as a
contiguous run inside `l` (model of JS `String.prototype.includes`). -/
def hasSub (pat : List Char) : List Char → Bool
  | [] => pat.isEmpty
  | c :: cs => startsL pat (c :: cs) || hasSub pat cs

/-- Model of JS `String.prototype.includes`. -/
def jsIncludes (s pat : String) : Bool := hasSub pat.data s.data

/-- ASCII model of JS `String.prototype.toLowerCase` on one character. -/
def lowerChar (c : Char) : Char :=
  if 'A' ≤ c ∧ c ≤ 'Z' then Char.ofNat (c.toNat + 32) else c

/-- ASCII model of JS `String.prototype.toLowerCase`. -/
def jsToLower (s : String) : String := ⟨s.data.map lowerChar⟩

/-- Model of JS falsy-aware `x || d` for an optional string `x`
(`undefined` and the empty string are falsy; any other string wins). -/
def jsOrS : Option String → String → String
  | some s, d => if s = "" then d else s
  | none, d => d

/-- Helper for `title.replace(/\s+/g, "_")`: the Boolean records whether
the previous character belonged to a whitespace run already replaced. -/
def sqAux : Bool → List Char → List Char
  | _, [] => []
  | prevWs, c :: cs =>
    if isWsJs c then (if prevWs then sqAux true cs else '_' :: sqAux true cs)
    else c :: sqAux false cs

/-- Model of `title.replace(/\s+/g, "_")`: every maximal whitespace run
becomes a single underscore. -/
def squashWs (s : String) : String := ⟨sqAux false s.data⟩

/-- Helper for `name.split(".").pop()`: the accumulator holds the current
segment (text since the last dot). -/
def dotPop (cur : List Char) : List Char → List Char
  | [] => cur
  | c :: cs => if c = '.' then dotPop [] cs else dotPop (cur ++ [c]) cs

/-- Model of `file.name.split(".").pop()` (the final dot-separated
segment; the whole name when it contains no dot). -/
def fileExtOf (name : String) : String := ⟨dotPop [] name.data⟩

/-- Model of `file.name.replace(/\.[^/.]+$/, "")`: strip one trailing
`.ext` whose `ext` is nonempty and contains neither `.` nor `/`. -/
def stripLastExt (name : String) : String :=
  let rev := name.data.reverse
  let seg := List.takeWhile (fun c => !(c = '.' || c = '/')) rev
  let rest := List.dropWhile (fun c => !(c = '.' || c = '/')) rev
  match rest with
  | c :: cs => if c = '.' && !seg.isEmpty then ⟨cs.reverse⟩ else name
  | [] => name

/-! ### JSON values and a model of `JSON.parse` -/

/-- JSON values as produced by `JSON.parse`.  Numbers keep their source
lexeme: the pipeline under verification never inspects numeric values, so
no double-precision semantics is needed. -/
inductive JVal where
  | null
  | bool (b : Bool)
  | num (lexeme : String)
  | str (s : String)
  | arr (elems : List JVal)
  | obj (fields : List (String × JVal))
deriving Repr

/-- Hex digit value, for `\uXXXX` escapes. -/
def hexVal (c : Char) : Option Nat :=
  if '0' ≤ c ∧ c ≤ '9' then some (c.toNat - 48)
  else if 'a' ≤ c ∧ c ≤ 'f' then some (c.toNat - 87)
  else if 'A' ≤ c ∧ c ≤ 'F' then some (c.toNat - 55)
  else none

/-- JSON short escapes (`\" \\ \/ \b \f \n \r \t`). -/
def escMap (c : Char) : Option Char :=
  if c = '"' then some '"'
  else if c = '\\' then some '\\'
  else if c = '/' then some '/'
  else if c = 'b' then some (Char.ofNat 8)
  else if c = 'f' then some (Char.ofNat 12)
  else if c = 'n' then some '\n'
  else if c = 'r' then some '\r'
  else if c = 't' then some '\t'
  else none

def isDigitCh (c : Char) : Bool := '0' ≤ c && c ≤ '9'

/-- Lex a JSON number (sign, integer part without leading zeros, optional
fraction, optional exponent), returning its lexeme and the rest. -/
def lexNum (l : List Char) : Option (List Char × List Char) :=
  let (sgn, l1) : List Char × List Char :=
    match l with
    | c :: cs => if c = '-' then ([c], cs) else ([], l)
    | [] => ([], [])
  match l1 with
  | [] => none
  | c :: cs =>
    let ipart? : Option (List Char × List Char) :=
      if c = '0' then some ([c], cs)
      else if isDigitCh c then some (List.takeWhile isDigitCh l1, List.dropWhile isDigitCh l1)
      else none
    match ipart? with
    | none => none
    | some (ip, r1) =>
      let (fp, r2) : List Char × List Char :=
        match r1 with
        | d :: ds =>
          if d = '.' then
            let digs := List.takeWhile isDigitCh ds
            if digs.isEmpty then ([], r1) else (d :: digs, List.dropWhile isDigitCh ds)
          else ([], r1)
        | [] => ([], r1)
      -- a dot not followed by a digit is a syntax error in JSON
      let fracBad : Bool :=
        match r1 with
        | d :: ds => d = '.' && (List.takeWhile isDigitCh ds).isEmpty
        | [] => false
      if fracBad then none
      else
        match r2 with
        | e :: es =>
          if e = 'e' || e = 'E' then
            let (esgn, es2) : List Char × List Char :=
              match es with
              | s :: ss => if s = '+' || s = '-' then ([s], ss) else ([], es)
              | [] => ([], es)
            let edigs := List.takeWhile isDigitCh es2
            if edigs.isEmpty then none
            else some (sgn ++ ip ++ fp ++ e :: esgn ++ edigs, List.dropWhile isDigitCh es2)
          else some (sgn ++ ip ++ fp, r2)
        | [] => some (sgn ++ ip ++ fp, r2)

/-- Parser modes: a JSON value, the items of an array after `[`, the
members of an object after `{`, or the body of a string after `"`. -/
inductive PM where
  | value
  | items
  | members
  | strBody

/-- Intermediate parser results, one constructor per mode. -/
inductive PNode where
  | v (j : JVal)
  | vs (js : List JVal)
  | ms (kvs : List (String × JVal))
  | sb (s : String)

/-- One recursive-descent JSON parser covering all modes; the fuel makes
the recursion structural and is always sufficient for the input (each
step that recurses has consumed input). -/
def pgo : Nat → PM → List Char → Option (PNode × List Char)
  | 0, _, _ => none
  | f + 1, PM.strBody, l =>
    match l with
    | [] => none
    | c :: cs =>
      if c = '"' then some (PNode.sb "", cs)
      else if c = '\\' then
        match cs with
        | [] => none
        | e :: cs2 =>
          if e = 'u' then
            match cs2 with
            | h1 :: h2 :: h3 :: h4 :: cs3 =>
              match hexVal h1, hexVal h2, hexVal h3, hexVal h4 with
              | some a, some b, some d, some e4 =>
                match pgo f PM.strBody cs3 with
                | some (PNode.sb s, r) =>
                  some (PNode.sb ⟨Char.ofNat (((a * 16 + b) * 16 + d) * 16 + e4) :: s.data⟩, r)
                | _ => none
              | _, _, _, _ => none
            | _ => none
          else
            match escMap e with
            | some ec =>
              match pgo f PM.strBody cs2 with
              | some (PNode.sb s, r) => some (PNode.sb ⟨ec :: s.data⟩, r)
              | _ => none
            | none => none
      else if c.toNat < 32 then none
      else
        match pgo f PM.strBody cs with
        | some (PNode.sb s, r) => some (PNode.sb ⟨c :: s.data⟩, r)
        | _ => none
  | f + 1, PM.value, l =>
    let l := List.dropWhile isWsJs l
    match l with
    | [] => none
    | c :: cs =>
      if c = '"' then
        match pgo f PM.strBody cs with
        | some (PNode.sb s, r) => some (PNode.v (JVal.str s), r)
        | _ => none
      else if c = '[' then
        let l2 := List.dropWhile isWsJs cs
        match l2 with
        | d :: ds =>
          if d = ']' then some (PNode.v (JVal.arr []), ds)
          else
            match pgo f PM.items l2 with
            | some (PNode.vs js, r) => some (PNode.v (JVal.arr js), r)
            | _ => none
        | [] => none
      else if c = '{' then
        let l2 := List.dropWhile isWsJs cs
        match l2 with
        | d :: ds =>
          if d = '}' then some (PNode.v (JVal.obj []), ds)
          else
            match pgo f PM.members l2 with
            | some (PNode.ms kvs, r) => some (PNode.v (JVal.obj kvs), r)
            | _ => none
        | [] => none
      else if startsL "true".data l then some (PNode.v (JVal.bool true), l.drop 4)
      else if startsL "false".data l then some (PNode.v (JVal.bool false), l.drop 5)
      else if startsL "null".data l then some (PNode.v JVal.null, l.drop 4)
      else
        match lexNum l with
        | some (lx, r) => some (PNode.v (JVal.num ⟨lx⟩), r)
        | none => none
  | f + 1, PM.items, l =>
    match pgo f PM.value l with
    | some (PNode.v v, r) =>
      let r := List.dropWhile isWsJs r
      match r with
      | c :: cs =>
        if c = ',' then
          match pgo f PM.items cs with
          | some (PNode.vs js, r2) => some (PNode.vs (v :: js), r2)
          | _ => none
        else if c = ']' then some (PNode.vs [v], cs)
        else none
      | [] => none
    | _ => none
  | f + 1, PM.members, l =>
    let l := List.dropWhile isWsJs l
    match l with
    | c :: cs =>
      if c = '"' then
        match pgo f PM.strBody cs with
        | some (PNode.sb k, r) =>
          match List.dropWhile isWsJs r with
          | d :: ds =>
            if d = ':' then
              match pgo f PM.value ds with
              | some (PNode.v v, r2) =>
                match List.dropWhile isWsJs r2 with
                | e :: es =>
                  if e = ',' then
                    match pgo f PM.members es with
                    | some (PNode.ms kvs, r3) => some (PNode.ms ((k, v) :: kvs), r3)
                    | _ => none
                  else if e = '}' then some (PNode.ms [(k, v)], es)
                  else none
                | [] => none
              | _ => none
            else none
          | [] => none
        | _ => none
      else none
    | [] => none

/-- Model of `JSON.parse`: trim the input, parse one JSON value, and
require only whitespace afterwards.  `none` models a thrown
`SyntaxError`.  Trimming first keeps the fuel a function of the trimmed
text, so equal trimmed texts parse identically. -/
def jsonParse (s : String) : Option JVal :=
  let t := jsTrimL s.data
  match pgo (t.length * 3 + 16) PM.value t with
  | some (PNode.v j, r) => if (List.dropWhile isWsJs r).isEmpty then some j else none
  | _ => none


/-! ### The parsed analysis (source `interface GeminiAnalysis`) -/

/-- One abnormal test row, as declared in the source interface
(`parameter/value/unit/reference_range/status`, all free text; the source
declares `status` as the union `"LOW" | "HIGH"`). -/
structure TestFinding where
  parameter : String
  value : String
  unit : String
  reference_range : String
  status : String
deriving DecidableEq, Repr

/-- The source `interface GeminiAnalysis`: every field optional. -/
structure GeminiAnalysis where
  report_title : Option String := none
  doctor_name : Option String := none
  report_date : Option String := none
  tests : Option (List TestFinding) := none
  summary : Option String := none
deriving DecidableEq, Repr

/-- Last-occurrence field lookup on a parsed JSON object (later duplicate
keys win, as in `JSON.parse`). -/
def getField (fs : List (String × JVal)) (k : String) : Option JVal :=
  fs.foldl (fun acc p => if p.1 = k then some p.2 else acc) none

/-- A string-valued field, `none` when absent or of another type. -/
def getStrField (fs : List (String × JVal)) (k : String) : Option String :=
  match getField fs k with
  | some (JVal.str s) => some s
  | _ => none

/-- Decode one element of the `tests` array at the declared row type. -/
def decodeTest (j : JVal) : Option TestFinding :=
  match j with
  | JVal.obj fs =>
    match getStrField fs "parameter", getStrField fs "value", getStrField fs "unit",
        getStrField fs "reference_range", getStrField fs "status" with
    | some p, some v, some u, some rr, some st =>
      some { parameter := p, value := v, unit := u, reference_range := rr, status := st }
    | _, _, _, _, _ => none
  | _ => none

/-- Decode the `tests` field: present only when it is an array whose
every element decodes at the declared row type. -/
def getTestsField (fs : List (String × JVal)) : Option (List TestFinding) :=
  match getField fs "tests" with
  | some (JVal.arr items) => items.mapM decodeTest
  | _ => none

/-- View a parsed JSON document at the source's own declared type
`GeminiAnalysis`.  A JSON object yields the record with each field taken
when present at its declared type; any other document (in particular the
JSON literal `null`, which is falsy in the source's `if (parsedAnalysis)`
test) yields no analysis. -/
def jsToAnalysis (j : JVal) : Option GeminiAnalysis :=
  match j with
  | JVal.obj fs =>
    some { report_title := getStrField fs "report_title",
           doctor_name := getStrField fs "doctor_name",
           report_date := getStrField fs "report_date",
           tests := getTestsField fs,
           summary := getStrField fs "summary" }
  | _ => none

/-! ### Markdown fence stripping (`handleUpload`, the `cleanedJson` code) -/

/-- Fueled scan for `.replace(/```json\n?/g, "")`: every occurrence of
the tagged fence, with one optional following newline, is removed;
scanning continues after each removed occurrence without rescanning the
output side (exactly the semantics of a global regex replace).  The fuel
makes the recursion structural; `removeTagGlobal` supplies enough. -/
def rtgo : Nat → List Char → List Char
  | 0, l => l
  | _ + 1, [] => []
  | f + 1, c :: cs =>
    if startsL ("```json" ++ "\n").data (c :: cs) then rtgo f ((c :: cs).drop 8)
    else if startsL "```json".data (c :: cs) then rtgo f ((c :: cs).drop 7)
    else c :: rtgo f cs

/-- Model of `.replace(/```json\n?/g, "")`. -/
def removeTagGlobal (l : List Char) : List Char := rtgo l.length l

/-- Fueled scan for `.replace(/```\n?/g, "")` (untagged fences). -/
def rfgo : Nat → List Char → List Char
  | 0, l => l
  | _ + 1, [] => []
  | f + 1, c :: cs =>
    if startsL ("```" ++ "\n").data (c :: cs) then rfgo f ((c :: cs).drop 4)
    else if startsL "```".data (c :: cs) then rfgo f ((c :: cs).drop 3)
    else c :: rfgo f cs

/-- Model of `.replace(/```\n?/g, "")`. -/
def removeFenceGlobal (l : List Char) : List Char := rfgo l.length l

/-- Model of `.replace(/```\n?$/g, "")`: the regex is anchored at the end
of the input (JS `$` without the `m` flag), so it removes one trailing
fence, greedily including a newline directly after the backticks. -/
def removeEndFence (l : List Char) : List Char :=
  if startsL ("```" ++ "\n").data.reverse l.reverse then (l.reverse.drop 4).reverse
  else if startsL "```".data.reverse l.reverse then (l.reverse.drop 3).reverse
  else l

/-- The `cleanedJson` computation in `handleUpload`: trim the raw model
output; when it starts with a ` ```json ` fence, remove all tagged fences
and one trailing fence; when it starts with a bare ` ``` ` fence, remove
all untagged fences. -/
def cleanMarkdown (raw : String) : String :=
  let t := jsTrimS raw
  if strStarts t "```json" then ⟨removeEndFence (removeTagGlobal t.data)⟩
  else if strStarts t "```" then ⟨removeFenceGlobal t.data⟩
  else t

/-- The inner `try/catch` around `JSON.parse` in `handleUpload`: a JSON
parse failure is absorbed by wrapping the whole raw output as the
`summary` of an otherwise-empty analysis (`parsedAnalysis = { summary:
aiAnalysis }`); a successful parse is viewed at the declared type. -/
def parseGeminiOutput (raw : String) : Option GeminiAnalysis :=
  match jsonParse (cleanMarkdown raw) with
  | none => some { summary := some raw }
  | some j => jsToAnalysis j

/-! ### PDF text extraction (`extractTextFromPdf`) -/

/-- Model of `textContent.items.map(item => item.str).join(" ")`. -/
def joinSp : List String → String
  | [] => ""
  | [x] => x
  | x :: xs => x ++ " " ++ joinSp xs

/-- The page loop of `extractTextFromPdf`: for each page (numbered from
`n`) append `"\n\n=== Page N ===\n"` and the page's joined text. -/
def buildFull (n : Nat) : List (List String) → String
  | [] => ""
  | p :: ps => "\n\n=== Page " ++ toString n ++ " ===\n" ++ joinSp p ++ buildFull (n + 1) ps

/-- Model of `extractTextFromPdf` on a successfully opened document,
given per page the recognised text tokens (`item.str` values): build the
page-delimited text and trim it.  The pdf.js backend is assumed
deterministic, so the whole function is a pure function of the pages. -/
def extractTextFromPdf (pages : List (List String)) : String :=
  jsTrimS (buildFull 1 pages)


/-! ### The ingestion pipeline (`handleFileChange`, `handleUpload`) -/

/-- The selected file: name, declared media type, byte size. -/
structure FileInfo where
  name : String
  ftype : String
  size : Nat
deriving DecidableEq, Repr

/-- The error classes a `handleUpload` run can abort with (the analysis
errors are absorbed and never abort, so they do not appear here). -/
inductive ErrKind where
  | validation
  | config
  | extraction
  | storage
  | persistence
deriving DecidableEq, Repr

/-- Outcomes of the external calls one ingestion makes, supplied as an
environment: the stored user id, the clock value, whether the Supabase
client was configured, the result of `extractTextFromPdf` (`Except.error`
models a rejected promise), the result of `runGeminiAnalysis`, the
`uploadError` of the storage put, the public URL, and the Firestore
`addDoc` error. -/
structure PipelineEnv where
  storedUserId : Option String
  supabaseOk : Bool
  extractRes : Except String String
  geminiRes : Except String String
  uploadErr : Option String
  publicUrl : String
  firestoreErr : Option String
deriving Repr

/-- The nested `aiAnalysis` object written to Firestore (its `processedAt`
timestamp is outside the model). -/
structure AiAnalysis where
  reportTitle : String
  doctorName : String
  reportDate : String
  tests : List TestFinding
  summary : String
deriving DecidableEq, Repr

/-- The `documentData` record written to Firestore.  Fields the source
sets only on some paths are `Option`s; `none` means the key is absent
from the record (which Firestore distinguishes from an empty value).
The clock fields `uploadedAt`/`createdAt` are outside the model. -/
structure DocumentData where
  title : String
  fileUrl : String
  fileName : String
  fileType : String
  fileSize : Nat
  userId : String
  extractedText : Option String
  aiAnalysis : Option AiAnalysis
  anomalies : Option (List String)
  hasAnomalies : Option Bool
  anomalyCount : Option Nat
  category : String
  processingStatus : String
deriving DecidableEq, Repr

/-- The anomaly line `` `${test.parameter}: ${test.value} ${test.unit}
(${test.status})` `` rendered for each abnormal test. -/
def renderTest (t : TestFinding) : String :=
  t.parameter ++ ": " ++ t.value ++ " " ++ t.unit ++ " (" ++ t.status ++ ")"

/-- The category ladder of `handleUpload`, applied to the lowercased
report title: ordered case chain `blood`/`kidney`/`liver`/`thyroid`/
`prescription`, with `"General Medical Report"` as the default. -/
def deriveCategory (rt : String) : String :=
  if jsIncludes rt "blood" then "Blood Test"
  else if jsIncludes rt "kidney" then "Kidney Function"
  else if jsIncludes rt "liver" then "Liver Function"
  else if jsIncludes rt "thyroid" then "Thyroid"
  else if jsIncludes rt "prescription" then "Prescription"
  else "General Medical Report"

/-- Assembly of `documentData` (source lines building the record): base
file metadata, the extracted text when truthy (the empty string is falsy
in JS, so it is not stored), and — only when a parsed analysis exists —
the `aiAnalysis` object, the anomaly fields, the category, and
`processingStatus = "completed"`; otherwise `processingStatus =
"uploaded_without_analysis"` and `category = "Uncategorized"`, with no
anomaly fields at all. -/
def buildDocumentData (title : String) (f : FileInfo) (userId fileKey publicUrl : String)
    (extractedText : Option String) (parsed : Option GeminiAnalysis) : DocumentData :=
  let storedText : Option String :=
    match extractedText with
    | some t => if t = "" then none else some t
    | none => none
  match parsed with
  | some a =>
    let tests := a.tests.getD []
    { title := title, fileUrl := publicUrl, fileName := fileKey, fileType := f.ftype,
      fileSize := f.size, userId := userId, extractedText := storedText,
      aiAnalysis := some
        { reportTitle := jsOrS a.report_title title,
          doctorName := jsOrS a.doctor_name "Not specified",
          reportDate := jsOrS a.report_date "Not specified",
          tests := tests,
          summary := jsOrS a.summary "No summary available" },
      anomalies := some (if 0 < tests.length then tests.map renderTest else []),
      hasAnomalies := some (0 < tests.length),
      anomalyCount := some (if 0 < tests.length then tests.length else 0),
      category := deriveCategory (jsOrS (a.report_title.map jsToLower) ""),
      processingStatus := "completed" }
  | none =>
    { title := title, fileUrl := publicUrl, fileName := fileKey, fileType := f.ftype,
      fileSize := f.size, userId := userId, extractedText := storedText,
      aiAnalysis := none, anomalies := none, hasAnomalies := none, anomalyCount := none,
      category := "Uncategorized", processingStatus := "uploaded_without_analysis" }

/-- What one `handleUpload` call did: which external stages were invoked
(`extractCalled` for `extractTextFromPdf`, `geminiCalled` for
`runGeminiAnalysis`, `storagePut` for the Supabase upload), the record
handed to `addDoc` (if the write was attempted), the record actually
persisted (if the write succeeded), and the error the call surfaced. -/
structure RunResult where
  extractCalled : Bool
  geminiCalled : Bool
  storagePut : Bool
  dbWrite : Option DocumentData
  persisted : Option DocumentData
  error : Option ErrKind
deriving DecidableEq, Repr

/-- The `fileName` storage key: `` `${userId}/${timestamp}-${title with
whitespace runs replaced by _}.${ext}` ``. -/
def storageKey (userId : String) (timestamp : Nat) (title : String) (f : FileInfo) : String :=
  userId ++ "/" ++ toString timestamp ++ "-" ++ squashWs title ++ "." ++ fileExtOf f.name

/-- Upload and persistence tail of `handleUpload` (steps 1–3): the
storage put, then — only when it succeeded — the record assembly and the
Firestore write. -/
def uploadAndSave (f : FileInfo) (title : String) (env : PipelineEnv) (timestamp : Nat)
    (extractedText : Option String) (parsed : Option GeminiAnalysis)
    (ec gc : Bool) : RunResult :=
  let userId := jsOrS env.storedUserId "anonymous"
  match env.uploadErr with
  | some _ => ⟨ec, gc, true, none, none, some ErrKind.storage⟩
  | none =>
    let d := buildDocumentData title f userId (storageKey userId timestamp title f)
      env.publicUrl extractedText parsed
    match env.firestoreErr with
    | some _ => ⟨ec, gc, true, some d, none, some ErrKind.persistence⟩
    | none => ⟨ec, gc, true, some d, some d, none⟩

/-- Model of `handleUpload`: validation, the Supabase-configuration
check, then for PDFs extraction (fatal on failure) and Gemini analysis
(failure caught: the pipeline continues with no parsed analysis; an
unparsable output falls back inside `parseGeminiOutput`), then the
storage upload and the Firestore write. -/
def handleUpload (selectedFile : Option FileInfo) (documentTitle : String)
    (env : PipelineEnv) (timestamp : Nat) : RunResult :=
  match selectedFile with
  | none => ⟨false, false, false, none, none, some ErrKind.validation⟩
  | some f =>
    if jsTrimS documentTitle = "" then ⟨false, false, false, none, none, some ErrKind.validation⟩
    else if env.supabaseOk = false then ⟨false, false, false, none, none, some ErrKind.config⟩
    else if f.ftype = "application/pdf" then
      match env.extractRes with
      | Except.error _ => ⟨true, false, false, none, none, some ErrKind.extraction⟩
      | Except.ok text =>
        let parsed : Option GeminiAnalysis :=
          match env.geminiRes with
          | Except.error _ => none
          | Except.ok raw => parseGeminiOutput raw
        uploadAndSave f documentTitle env timestamp (some text) parsed true true
    else uploadAndSave f documentTitle env timestamp none none false false

/-- The file types `handleFileChange` accepts (the source's
`allowedTypes` array). -/
def allowedTypes : List String :=
  ["application/pdf", "image/jpeg", "image/png", "image/jpg"]

/-- Model of `handleFileChange`: given the current `(selectedFile,
documentTitle)` state and the file chosen in the event (if any), return
the new state.  Oversized (> 10 MiB) or disallowed-type files are
rejected with the state unchanged; an accepted file is selected, and the
title — when still empty — defaults to the file name without its
extension. -/
def handleFileChange (current : Option FileInfo) (currentTitle : String)
    (chosen : Option FileInfo) : Option FileInfo × String :=
  match chosen with
  | none => (current, currentTitle)
  | some f =>
    if f.size > 10 * 1024 * 1024 then (current, currentTitle)
    else if (allowedTypes.contains f.ftype) = false then (current, currentTitle)
    else (some f, if currentTitle = "" then stripLastExt f.name else currentTitle)

/-! ### Spec-side constructions (used to state the claims) -/

/-- A model output wrapped in a fenced code block tagged `json`. -/
def wrapTagged (s : String) : String := "```json\n" ++ s ++ "\n```"

/-- A model output wrapped in an untagged fenced code block. -/
def wrapUntagged (s : String) : String := "```\n" ++ s ++ "\n```"

/-- The ordered keyword→category rule list, as the specification states
it. -/
def specCategoryRules : List (String × String) :=
  [("blood", "Blood Test"), ("kidney", "Kidney Function"), ("liver", "Liver Function"),
   ("thyroid", "Thyroid"), ("prescription", "Prescription")]

/-- Category derivation as the specification words it: first rule (in
order) whose keyword occurs case-insensitively in the report title wins;
no match yields `"General Medical Report"`. -/
def specCategory (reportTitle : String) : String :=
  match specCategoryRules.find? (fun r => jsIncludes (jsToLower reportTitle) (jsToLower r.1)) with
  | some r => r.2
  | none => "General Medical Report"

/-- List index pairing starting at `n` (page numbering starts at 1). -/
def enumFrom (n : Nat) : List α → List (Nat × α)
  | [] => []
  | a :: as => (n, a) :: enumFrom (n + 1) as

/-- One page segment as the specification words it: the page-header
marker for page `n` followed by that page's tokens joined by single
spaces. -/
def specSegment (n : Nat) (toks : List String) : String :=
  "=== Page " ++ toString n ++ " ===\n" ++ joinSp toks

/-- All page segments of a document, numbered in order from 1. -/
def specSegments (pages : List (List String)) : List String :=
  (enumFrom 1 pages).map (fun p => specSegment p.1 p.2)

/-- Blank-line separated concatenation (spec-side). -/
def strIntercalate (sep : String) : List String → String
  | [] => ""
  | [x] => x
  | x :: xs => x ++ sep ++ strIntercalate sep xs

/-- The fence marker characters (` ``` `). -/
def fenceChars : List Char := "```".data

/-- The tagged fence marker characters (` ```json `). -/
def tagChars : List Char := "```json".data

/-! ### Sanity checks of the embedding on concrete inputs -/

example : jsonParse "" = none := rfl
example : jsonParse " null " = some JVal.null := rfl
example : jsonParse "\x7b\"a\": [1, \"x\"]\x7d" =
    some (JVal.obj [("a", JVal.arr [JVal.num "1", JVal.str "x"])]) := rfl
example : jsonParse "\x7b\"a\":1" = none := rfl
example : jsonParse "01" = none := rfl

example : extractTextFromPdf [] = "" := rfl
example : extractTextFromPdf [["a", "b"], ["c"]] =
    "=== Page 1 ===\na b\n\n=== Page 2 ===\nc" := rfl

example : cleanMarkdown "```json\n\x7b\"a\":1\x7d\n```" = "\x7b\"a\":1\x7d\n" := rfl
example : cleanMarkdown "```\n\x7b\"a\":1\x7d\n```" = "\x7b\"a\":1\x7d\n" := rfl
example :
    parseGeminiOutput "\x7b\"report_title\":\"Kidney Function Test Report\",\"tests\":[],\"summary\":\"ok\"\x7d"
      = some { report_title := some "Kidney Function Test Report", tests := some [],
               summary := some "ok" } := rfl

example : handleFileChange none "" (some ⟨"scan.pdf", "application/pdf", 100⟩)
    = (some ⟨"scan.pdf", "application/pdf", 100⟩, "scan") := rfl

/-! ### Generic helper lemmas -/

theorem strEq {s t : String} (h : s.data = t.data) : s = t := by
  cases s; cases t; exact congrArg String.mk h

theorem jsOrS_some_empty (x : String) : jsOrS (some x) "" = x := by
  by_cases h : x = "" <;> simp [jsOrS, h]

/-! ### C5 — extraction on zero-page / text-free documents -/

/-- C5, counterexample: a valid one-page PDF with no text tokens is a
text-free document, yet extraction returns the page-header marker
`"=== Page 1 ==="`, not the empty string as claimed. -/
theorem c5_counterexample : extractTextFromPdf [[]] ≠ "" := by decide

/-- C5, amended: extraction never errors (it is a total function of the
pages); it returns the empty string for a zero-page document, but for a
text-free document with pages it returns just the page-header markers —
e.g. `"=== Page 1 ==="` for one token-free page (also when the page's
tokens are all empty strings), which is not the empty string. -/
theorem c5_amended :
    extractTextFromPdf [] = "" ∧
    extractTextFromPdf [[]] = "=== Page 1 ===" ∧
    extractTextFromPdf [[""]] = "=== Page 1 ===" ∧
    extractTextFromPdf [[], []] = "=== Page 1 ===\n\n\n=== Page 2 ===" :=
  ⟨rfl, rfl, rfl, rfl⟩

/-! ### C7 — the category ladder -/

theorem deriveCategory_eq_specCategory (t : String) :
    deriveCategory (jsToLower t) = specCategory t := by
  have h1 : jsToLower "blood" = "blood" := rfl
  have h2 : jsToLower "kidney" = "kidney" := rfl
  have h3 : jsToLower "liver" = "liver" := rfl
  have h4 : jsToLower "thyroid" = "thyroid" := rfl
  have h5 : jsToLower "prescription" = "prescription" := rfl
  simp only [specCategory, specCategoryRules, List.find?, h1, h2, h3, h4, h5,
    deriveCategory]
  by_cases b1 : jsIncludes (jsToLower t) "blood" <;>
    by_cases b2 : jsIncludes (jsToLower t) "kidney" <;>
      by_cases b3 : jsIncludes (jsToLower t) "liver" <;>
        by_cases b4 : jsIncludes (jsToLower t) "thyroid" <;>
          by_cases b5 : jsIncludes (jsToLower t) "prescription" <;>
            simp [b1, b2, b3, b4, b5]

/-- C7: the category persisted for an analyzed document is exactly the
specification's ordered, case-insensitive, first-match-wins keyword
ladder applied to the model-supplied report title (`""` when absent),
with `"General Medical Report"` as the no-match default — a pure function
of that title. -/
theorem c7_category_ladder (title : String) (f : FileInfo) (uid key url : String)
    (et : Option String) (a : GeminiAnalysis) :
    (buildDocumentData title f uid key url et (some a)).category
      = specCategory (a.report_title.getD "") := by
  rw [← deriveCategory_eq_specCategory]
  cases h : a.report_title with
  | none => simp [buildDocumentData, h, jsOrS, jsToLower]
  | some s => simp [buildDocumentData, h, jsOrS_some_empty]

/-! ### C8 — anomaly fields derived from the tests -/

/-- C8: for every analyzed document, the persisted `anomalies` list
renders the tests in order as `"{parameter}: {value} {unit} ({status})"`,
`anomalyCount` is the number of tests, and `hasAnomalies` is set exactly
when that count is positive (a missing `tests` field behaves as the empty
sequence). -/
theorem c8_anomaly_fields (title : String) (f : FileInfo) (uid key url : String)
    (et : Option String) (a : GeminiAnalysis) :
    (buildDocumentData title f uid key url et (some a)).anomalies
        = some ((a.tests.getD []).map renderTest) ∧
    (buildDocumentData title f uid key url et (some a)).anomalyCount
        = some (a.tests.getD []).length ∧
    (buildDocumentData title f uid key url et (some a)).hasAnomalies
        = some (decide (0 < (a.tests.getD []).length)) := by
  cases hts : a.tests.getD [] with
  | nil => simp [buildDocumentData, hts]
  | cons t ts => simp [buildDocumentData, hts]

/-! ### C10 — category comes from `report_title`, not the persisted title -/

/-- C10: the category is computed from the model-supplied `report_title`
(lowercased, empty when absent); when that field is absent the category
is the default `"General Medical Report"`, even though the persisted
`aiAnalysis.reportTitle` falls back to the user-supplied document
title. -/
theorem c10_category_source (title : String) (f : FileInfo) (uid key url : String)
    (et : Option String) (a : GeminiAnalysis) (h : a.report_title = none) :
    (buildDocumentData title f uid key url et (some a)).category = "General Medical Report" ∧
    ((buildDocumentData title f uid key url et (some a)).aiAnalysis).map AiAnalysis.reportTitle
      = some title := by
  constructor
  · simp [buildDocumentData, h, jsOrS]
    rfl
  · simp [buildDocumentData, h, jsOrS]

/-- C10, witness: an analysis with no `report_title`, for a document the
user titled "Blood Test Results": the category defaults even though the
persisted report title contains the keyword `blood`. -/
theorem c10_category_source_witness :
    (buildDocumentData "Blood Test Results" ⟨"r.pdf", "application/pdf", 9⟩ "u" "k" "url" none
      (some { summary := some "sum" })).category = "General Medical Report" ∧
    ((buildDocumentData "Blood Test Results" ⟨"r.pdf", "application/pdf", 9⟩ "u" "k" "url" none
      (some { summary := some "sum" })).aiAnalysis).map AiAnalysis.reportTitle
      = some "Blood Test Results" :=
  c10_category_source "Blood Test Results" ⟨"r.pdf", "application/pdf", 9⟩ "u" "k" "url" none
    { summary := some "sum" } rfl

/-! ### C6 — page structure of the extracted text -/

theorem enumFrom_length (n : Nat) (l : List α) : (enumFrom n l).length = l.length := by
  induction l generalizing n with
  | nil => rfl
  | cons a as ih => simp [enumFrom, ih]

theorem strIntercalate_cons2 (sep a b : String) (t : List String) :
    strIntercalate sep (a :: b :: t) = a ++ sep ++ strIntercalate sep (b :: t) := rfl

theorem nnPage_split (x : String) :
    "\n\n=== Page " ++ x = "\n\n" ++ ("=== Page " ++ x) := by
  apply strEq
  have h : ("\n\n=== Page " : String).data = "\n\n".data ++ "=== Page ".data := rfl
  simp [String.data_append, h, List.append_assoc]

theorem buildFull_spec (ps : List (List String)) (n : Nat) (h : ps ≠ []) :
    buildFull n ps
      = "\n\n" ++ strIntercalate "\n\n" ((enumFrom n ps).map fun p => specSegment p.1 p.2) := by
  induction ps generalizing n with
  | nil => exact absurd rfl h
  | cons p ps ih =>
    have hstep : buildFull n (p :: ps)
        = "\n\n=== Page " ++ toString n ++ " ===\n" ++ joinSp p ++ buildFull (n + 1) ps := rfl
    have hlit : ("\n\n=== Page " : String) = "\n\n" ++ "=== Page " := rfl
    cases ps with
    | nil =>
      rw [hstep, show buildFull (n + 1) ([] : List (List String)) = "" from rfl]
      simp only [enumFrom, List.map, strIntercalate, specSegment]
      rw [String.append_empty]
      simp only [String.append_assoc]
      exact nnPage_split _
    | cons q qs =>
      rw [hstep, ih (n + 1) (by simp)]
      simp only [enumFrom, List.map, strIntercalate_cons2, specSegment]
      simp only [String.append_assoc]
      exact nnPage_split _

/-- C6: the extracted text of any document is exactly the trimmed
blank-line-separated concatenation of one segment per page, the `i`-th
segment carrying the header marker `=== Page i ===` (pages numbered in
ascending order from 1) followed by that page's tokens joined by single
spaces; there are as many segments as pages.  Both sides are pure
functions of the page contents, so the result is deterministic given a
deterministic extraction backend. -/
theorem c6_page_structure (pages : List (List String)) :
    extractTextFromPdf pages = jsTrimS ("\n\n" ++ strIntercalate "\n\n" (specSegments pages)) ∧
    (specSegments pages).length = pages.length := by
  constructor
  · cases hp : pages with
    | nil => rfl
    | cons p ps =>
      rw [extractTextFromPdf, specSegments, buildFull_spec (p :: ps) 1 (by simp)]
  · simp [specSegments, enumFrom_length]

/-! ### C1 — analysis failure does not abort the pipeline -/

/-- C1, counterexample: a valid PDF ingestion whose Gemini call fails,
with storage and database healthy.  The record is persisted with the
claimed status and category, but the claim's `anomalies = []` is false:
the no-analysis branch writes no `anomalies` key at all (the source sets
`anomalies` only inside `if (parsedAnalysis)`), so the persisted record
has the field absent, not bound to an empty list. -/
theorem c1_counterexample :
    (handleUpload (some ⟨"r.pdf", "application/pdf", 9⟩) "Report"
        ⟨some "u1", true, Except.ok "text", Except.error "network unreachable", none,
          "https://x/pub", none⟩ 1700).persisted.isSome = true ∧
    (handleUpload (some ⟨"r.pdf", "application/pdf", 9⟩) "Report"
        ⟨some "u1", true, Except.ok "text", Except.error "network unreachable", none,
          "https://x/pub", none⟩ 1700).persisted.bind DocumentData.anomalies ≠ some [] ∧
    (handleUpload (some ⟨"r.pdf", "application/pdf", 9⟩) "Report"
        ⟨some "u1", true, Except.ok "text", Except.error "network unreachable", none,
          "https://x/pub", none⟩ 1700).persisted.bind DocumentData.anomalies = none := by
  refine ⟨rfl, ?_, rfl⟩
  decide

/-- C1, amended: when a valid PDF's analysis call throws, the pipeline
does not abort — the storage upload runs and the database write happens —
and the persisted record has `processingStatus =
"uploaded_without_analysis"` and `category = "Uncategorized"`; but no
`anomalies` field is written at all (the key is absent rather than set to
the empty list). -/
theorem c1_amended (f : FileInfo) (title : String) (env : PipelineEnv) (ts : Nat)
    (text msg : String)
    (h1 : f.ftype = "application/pdf") (h2 : jsTrimS title ≠ "")
    (h3 : env.supabaseOk = true) (h4 : env.extractRes = Except.ok text)
    (h5 : env.geminiRes = Except.error msg) (h6 : env.uploadErr = none)
    (h7 : env.firestoreErr = none) :
    (handleUpload (some f) title env ts).storagePut = true ∧
    (handleUpload (some f) title env ts).dbWrite.isSome = true ∧
    (handleUpload (some f) title env ts).persisted.isSome = true ∧
    (handleUpload (some f) title env ts).persisted.map DocumentData.processingStatus
      = some "uploaded_without_analysis" ∧
    (handleUpload (some f) title env ts).persisted.map DocumentData.category
      = some "Uncategorized" ∧
    (handleUpload (some f) title env ts).persisted.bind DocumentData.anomalies = none := by
  simp [handleUpload, h1, h2, h3, h4, h5, uploadAndSave, h6, h7, buildDocumentData]

/-- C1, witness for the amended theorem at a concrete ingestion. -/
theorem c1_amended_witness :
    (handleUpload (some ⟨"scan.pdf", "application/pdf", 512⟩) "My Report"
        ⟨some "u1", true, Except.ok "=== Page 1 ===\nHb 10", Except.error "missing API key",
          none, "https://x/pub", none⟩ 42).storagePut = true ∧
    (handleUpload (some ⟨"scan.pdf", "application/pdf", 512⟩) "My Report"
        ⟨some "u1", true, Except.ok "=== Page 1 ===\nHb 10", Except.error "missing API key",
          none, "https://x/pub", none⟩ 42).dbWrite.isSome = true ∧
    (handleUpload (some ⟨"scan.pdf", "application/pdf", 512⟩) "My Report"
        ⟨some "u1", true, Except.ok "=== Page 1 ===\nHb 10", Except.error "missing API key",
          none, "https://x/pub", none⟩ 42).persisted.isSome = true ∧
    (handleUpload (some ⟨"scan.pdf", "application/pdf", 512⟩) "My Report"
        ⟨some "u1", true, Except.ok "=== Page 1 ===\nHb 10", Except.error "missing API key",
          none, "https://x/pub", none⟩ 42).persisted.map DocumentData.processingStatus
      = some "uploaded_without_analysis" ∧
    (handleUpload (some ⟨"scan.pdf", "application/pdf", 512⟩) "My Report"
        ⟨some "u1", true, Except.ok "=== Page 1 ===\nHb 10", Except.error "missing API key",
          none, "https://x/pub", none⟩ 42).persisted.map DocumentData.category
      = some "Uncategorized" ∧
    (handleUpload (some ⟨"scan.pdf", "application/pdf", 512⟩) "My Report"
        ⟨some "u1", true, Except.ok "=== Page 1 ===\nHb 10", Except.error "missing API key",
          none, "https://x/pub", none⟩ 42).persisted.bind DocumentData.anomalies = none :=
  c1_amended ⟨"scan.pdf", "application/pdf", 512⟩ "My Report"
    ⟨some "u1", true, Except.ok "=== Page 1 ===\nHb 10", Except.error "missing API key",
      none, "https://x/pub", none⟩ 42 "=== Page 1 ===\nHb 10" "missing API key"
    rfl (by decide) rfl rfl rfl rfl rfl

/-! ### C2 — a failed upload prevents any database write -/

/-- C2: if the object-store upload fails, the run surfaces a fatal error
and `addDoc` is never invoked — no database record is created; and
conversely, whenever a record reaches the database write, the upload had
succeeded (no `uploadError`) and the storage put had run. -/
theorem c2_upload_gates_db (sf : Option FileInfo) (title : String) (env : PipelineEnv)
    (ts : Nat) :
    (env.uploadErr.isSome = true →
      (handleUpload sf title env ts).dbWrite = none ∧
      (handleUpload sf title env ts).persisted = none ∧
      (handleUpload sf title env ts).error.isSome = true) ∧
    ((handleUpload sf title env ts).dbWrite.isSome = true →
      env.uploadErr = none ∧ (handleUpload sf title env ts).storagePut = true) := by
  obtain ⟨uid, sok, exr, gmr, upe, url, fse⟩ := env
  cases sf with
  | none => simp [handleUpload]
  | some f =>
    by_cases ht : jsTrimS title = ""
    · simp [handleUpload, ht]
    · cases sok
      · simp [handleUpload, ht]
      · by_cases hf : f.ftype = "application/pdf"
        · cases exr with
          | error e => simp [handleUpload, ht, hf]
          | ok text =>
            cases upe with
            | none => cases fse <;> simp [handleUpload, uploadAndSave, ht, hf]
            | some e => simp [handleUpload, uploadAndSave, ht, hf]
        · cases upe with
          | none => cases fse <;> simp [handleUpload, uploadAndSave, ht, hf]
          | some e => simp [handleUpload, uploadAndSave, ht, hf]

/-- C2, witness: a concrete ingestion whose storage put fails — no
database record of any kind, and a surfaced error. -/
theorem c2_upload_gates_db_witness :
    (handleUpload (some ⟨"r.pdf", "application/pdf", 9⟩) "Report"
        ⟨some "u1", true, Except.ok "text", Except.ok "\x7b\x7d", some "bucket unavailable",
          "https://x/pub", none⟩ 7).dbWrite = none ∧
    (handleUpload (some ⟨"r.pdf", "application/pdf", 9⟩) "Report"
        ⟨some "u1", true, Except.ok "text", Except.ok "\x7b\x7d", some "bucket unavailable",
          "https://x/pub", none⟩ 7).persisted = none ∧
    (handleUpload (some ⟨"r.pdf", "application/pdf", 9⟩) "Report"
        ⟨some "u1", true, Except.ok "text", Except.ok "\x7b\x7d", some "bucket unavailable",
          "https://x/pub", none⟩ 7).error.isSome = true :=
  (c2_upload_gates_db (some ⟨"r.pdf", "application/pdf", 9⟩) "Report"
    ⟨some "u1", true, Except.ok "text", Except.ok "\x7b\x7d", some "bucket unavailable",
      "https://x/pub", none⟩ 7).1 rfl

/-! ### C9 — validation and selection-time rejection -/

/-- C9, counterexample: the source's `allowedTypes` also contains the
nonstandard media-type string `"image/jpg"`.  A 5-byte file declaring
`type = "image/jpg"` — a media type other than the specification's
`application/pdf` / `image/jpeg` / `image/png` — is accepted at selection
time (the selection state changes to it), not rejected as claimed. -/
theorem c9_counterexample :
    (handleFileChange none "" (some ⟨"x.jpg", "image/jpg", 5⟩)).1
        = some ⟨"x.jpg", "image/jpg", 5⟩ ∧
    ("image/jpg" ∈ ["application/pdf", "image/jpeg", "image/png"]) = False := by
  refine ⟨rfl, ?_⟩
  simp

/-- C9, amended: invoking the orchestrator with no selected file, or with
a title that trims to empty, fails with a validation error before any
stage runs (no extraction, no analysis, no storage put, no database
write); and at selection time an oversized file (strictly more than
10 MiB) or a file whose media type is outside the source's allow-list is
rejected with the selection state unchanged — but that allow-list is
`application/pdf`, `image/jpeg`, `image/png` **and also** `image/jpg`,
one entry more than the claimed PDF/JPEG/PNG set. -/
theorem c9_amended :
    (∀ (title : String) (env : PipelineEnv) (ts : Nat),
      handleUpload none title env ts
        = ⟨false, false, false, none, none, some ErrKind.validation⟩) ∧
    (∀ (f : FileInfo) (title : String) (env : PipelineEnv) (ts : Nat),
      jsTrimS title = "" →
      handleUpload (some f) title env ts
        = ⟨false, false, false, none, none, some ErrKind.validation⟩) ∧
    (∀ (cur : Option FileInfo) (t : String) (f : FileInfo),
      10 * 1024 * 1024 < f.size → handleFileChange cur t (some f) = (cur, t)) ∧
    (∀ (cur : Option FileInfo) (t : String) (f : FileInfo),
      allowedTypes.contains f.ftype = false → handleFileChange cur t (some f) = (cur, t)) := by
  refine ⟨fun title env ts => rfl, fun f title env ts h => ?_, fun cur t f h => ?_,
    fun cur t f h => ?_⟩
  · simp [handleUpload, h]
  · simp [handleFileChange, h]
  · by_cases hs : 10 * 1024 * 1024 < f.size
    · simp [handleFileChange, hs]
    · simp [handleFileChange, hs, h]
      exact fun hm => absurd hm (by simpa using h)

/-- C9, witness: the amended theorem at concrete inputs — a missing file,
an all-whitespace title, an 11 MiB file, and a `text/plain` file. -/
theorem c9_amended_witness :
    handleUpload none "Report" ⟨none, true, Except.ok "", Except.ok "", none, "", none⟩ 0
        = ⟨false, false, false, none, none, some ErrKind.validation⟩ ∧
    handleUpload (some ⟨"a.pdf", "application/pdf", 9⟩) "   "
        ⟨none, true, Except.ok "", Except.ok "", none, "", none⟩ 0
        = ⟨false, false, false, none, none, some ErrKind.validation⟩ ∧
    handleFileChange none "" (some ⟨"big.pdf", "application/pdf", 11 * 1024 * 1024⟩)
        = (none, "") ∧
    handleFileChange none "" (some ⟨"notes.txt", "text/plain", 9⟩) = (none, "") :=
  ⟨c9_amended.1 "Report" ⟨none, true, Except.ok "", Except.ok "", none, "", none⟩ 0,
   c9_amended.2.1 ⟨"a.pdf", "application/pdf", 9⟩ "   "
     ⟨none, true, Except.ok "", Except.ok "", none, "", none⟩ 0 (by decide),
   c9_amended.2.2.1 none "" ⟨"big.pdf", "application/pdf", 11 * 1024 * 1024⟩ (by decide),
   c9_amended.2.2.2 none "" ⟨"notes.txt", "text/plain", 9⟩ (by decide)⟩

/-! ### C3 — unparsable model output falls back, never raises -/

/-- C3: whenever the (fence-stripped) model output fails to parse as
JSON, the analysis stage yields — without raising — the fallback findings
record whose `summary` is exactly the raw model output and whose other
fields are absent (so its tests sequence is empty), and a document built
from that record is persisted with `processingStatus = "completed"`. -/
theorem c3_fallback (raw : String) (h : jsonParse (cleanMarkdown raw) = none) :
    parseGeminiOutput raw
      = some { report_title := none, doctor_name := none, report_date := none,
               tests := none, summary := some raw } ∧
    (some { report_title := none, doctor_name := none, report_date := none,
            tests := none, summary := some raw } : Option GeminiAnalysis).map
        (fun a => a.tests.getD []) = some [] ∧
    ∀ (title : String) (f : FileInfo) (uid key url : String) (et : Option String),
      (buildDocumentData title f uid key url et (parseGeminiOutput raw)).processingStatus
        = "completed" := by
  have h1 : parseGeminiOutput raw
      = some { report_title := none, doctor_name := none, report_date := none,
               tests := none, summary := some raw } := by
    simp [parseGeminiOutput, h]
  refine ⟨h1, rfl, fun title f uid key url et => ?_⟩
  rw [h1]
  simp [buildDocumentData]

/-- C3, witness: a concrete non-JSON model reply. -/
theorem c3_fallback_witness :
    parseGeminiOutput "Sorry, I cannot analyze this."
      = some { report_title := none, doctor_name := none, report_date := none,
               tests := none, summary := some "Sorry, I cannot analyze this." } ∧
    (buildDocumentData "T" ⟨"r.pdf", "application/pdf", 9⟩ "u" "k" "url" none
      (parseGeminiOutput "Sorry, I cannot analyze this.")).processingStatus = "completed" :=
  ⟨(c3_fallback "Sorry, I cannot analyze this." rfl).1,
   (c3_fallback "Sorry, I cannot analyze this." rfl).2.2 "T" ⟨"r.pdf", "application/pdf", 9⟩
     "u" "k" "url" none⟩

/-! ### C4 — helper lemmas on prefixes, substrings and trimming -/

theorem startsL_append_self (p l : List Char) : startsL p (p ++ l) = true := by
  induction p with
  | nil => rfl
  | cons c cs ih => simp [startsL, ih]

theorem startsL_of_append (p q l : List Char) (h : startsL (p ++ q) l = true) :
    startsL p l = true := by
  induction p generalizing l with
  | nil => rfl
  | cons c cs ih =>
    cases l with
    | nil => simp [startsL] at h
    | cons d ds =>
      simp only [List.cons_append, startsL, Bool.and_eq_true] at h ⊢
      exact ⟨h.1, ih ds h.2⟩

theorem startsL_left (p x rest : List Char) (h : p.length ≤ x.length) :
    startsL p (x ++ rest) = startsL p x := by
  induction p generalizing x with
  | nil => rfl
  | cons a as ih =>
    cases x with
    | nil => simp at h
    | cons b bs =>
      simp only [List.cons_append, startsL]
      rw [show bs.append rest = bs ++ rest from rfl, ih bs (by simpa using h)]

theorem startsL_append_right (p l r : List Char) (h : startsL p l = true) :
    startsL p (l ++ r) = true := by
  induction p generalizing l with
  | nil => rfl
  | cons a as ih =>
    cases l with
    | nil => simp [startsL] at h
    | cons b bs =>
      simp only [List.cons_append, startsL, Bool.and_eq_true] at h ⊢
      exact ⟨h.1, ih bs h.2⟩

theorem hasSub_of_startsL (pat l : List Char) (hne : pat ≠ []) (h : startsL pat l = true) :
    hasSub pat l = true := by
  cases l with
  | nil =>
    cases pat with
    | nil => exact absurd rfl hne
    | cons p ps => simp [startsL] at h
  | cons c cs => simp [hasSub, h]

theorem hasSub_parts (pat : List Char) (c : Char) (cs : List Char)
    (h : hasSub pat (c :: cs) = false) :
    startsL pat (c :: cs) = false ∧ hasSub pat cs = false := by
  simpa [hasSub] using h

theorem hasSub_append_right (pat l r : List Char) (h : hasSub pat l = true) :
    hasSub pat (l ++ r) = true := by
  induction l with
  | nil =>
    simp [hasSub] at h
    subst h
    cases r with
    | nil => rfl
    | cons d ds => simp [hasSub, startsL]
  | cons c cs ih =>
    simp only [hasSub, Bool.or_eq_true] at h
    rcases h with h | h
    · simp only [List.cons_append, hasSub, Bool.or_eq_true]
      exact Or.inl (by
        show startsL pat ((c :: cs) ++ r) = true
        exact startsL_append_right _ _ _ h)
    · simp only [List.cons_append, hasSub, Bool.or_eq_true]
      exact Or.inr (ih h)

theorem hasSub_append_left (pat a l : List Char) (h : hasSub pat l = true) :
    hasSub pat (a ++ l) = true := by
  induction a with
  | nil => simpa using h
  | cons c cs ih => simp only [List.cons_append, hasSub, Bool.or_eq_true]; exact Or.inr ih

theorem dropWhile_decomp (p : Char → Bool) (l : List Char) :
    ∃ a, l = a ++ List.dropWhile p l := by
  induction l with
  | nil => exact ⟨[], rfl⟩
  | cons c cs ih =>
    by_cases h : p c
    · obtain ⟨a, ha⟩ := ih
      exact ⟨c :: a, by simp [List.dropWhile, h]; exact ha⟩
    · exact ⟨[], by simp [List.dropWhile, h]⟩

theorem dropWhile_head_false (p : Char → Bool) (l : List Char) (c : Char) (t : List Char)
    (h : List.dropWhile p l = c :: t) : p c = false := by
  induction l with
  | nil => simp [List.dropWhile] at h
  | cons d ds ih =>
    by_cases hd : p d
    · rw [List.dropWhile_cons_of_pos hd] at h
      exact ih h
    · rw [List.dropWhile_cons_of_neg hd] at h
      cases h
      simpa using hd

theorem dropWhile_idem (p : Char → Bool) (l : List Char) :
    List.dropWhile p (List.dropWhile p l) = List.dropWhile p l := by
  cases h : List.dropWhile p l with
  | nil => rfl
  | cons c t =>
    rw [List.dropWhile_cons_of_neg]
    simp [dropWhile_head_false p l c t h]

theorem wsDropLead_cons_nonws (c : Char) (l : List Char) (h : isWsJs c = false) :
    wsDropLead (c :: l) = c :: l := by
  rw [wsDropLead, List.dropWhile_cons_of_neg (by simp [h])]

theorem wsDropEnd_snoc_nonws (l : List Char) (c : Char) (h : isWsJs c = false) :
    wsDropEnd (l ++ [c]) = l ++ [c] := by
  rw [wsDropEnd, List.reverse_append]
  simp only [List.reverse_cons, List.reverse_nil, List.nil_append, List.singleton_append]
  rw [List.dropWhile_cons_of_neg (by simp [h])]
  simp

theorem jsTrimL_append_nl (l : List Char) : jsTrimL (l ++ ['\n']) = jsTrimL l := by
  have h : wsDropEnd (l ++ ['\n']) = wsDropEnd l := by
    rw [wsDropEnd, wsDropEnd, List.reverse_append]
    simp only [List.reverse_cons, List.reverse_nil, List.nil_append, List.singleton_append]
    rw [List.dropWhile_cons_of_pos (by decide)]
  rw [jsTrimL, jsTrimL, h]

theorem jsTrimL_idem (l : List Char) : jsTrimL (jsTrimL l) = jsTrimL l := by
  have hlead : wsDropLead (wsDropLead (wsDropEnd l)) = wsDropLead (wsDropEnd l) := by
    rw [wsDropLead, wsDropLead, dropWhile_idem]
  have hend : wsDropEnd (wsDropLead (wsDropEnd l)) = wsDropLead (wsDropEnd l) := by
    cases hmr : (wsDropLead (wsDropEnd l)).reverse with
    | nil =>
      have hm : wsDropLead (wsDropEnd l) = [] := by
        have := congrArg List.reverse hmr
        simpa using this
      rw [hm]; rfl
    | cons d t =>
      obtain ⟨a, ha⟩ := dropWhile_decomp isWsJs (wsDropEnd l)
      have her : List.dropWhile isWsJs l.reverse = d :: (t ++ a.reverse) := by
        have h1 : (wsDropEnd l).reverse
            = (wsDropLead (wsDropEnd l)).reverse ++ a.reverse := by
          conv_lhs => rw [ha]
          rw [List.reverse_append]
          rfl
        have h2 : (wsDropEnd l).reverse = List.dropWhile isWsJs l.reverse := by
          rw [wsDropEnd, List.reverse_reverse]
        rw [← h2, h1, hmr]
        simp
      have hd : isWsJs d = false := dropWhile_head_false _ _ _ _ her
      rw [wsDropEnd, hmr, List.dropWhile_cons_of_neg (by simp [hd]), ← hmr,
        List.reverse_reverse]
  show wsDropLead (wsDropEnd (wsDropLead (wsDropEnd l))) = wsDropLead (wsDropEnd l)
  rw [hend, hlead]

theorem hasSub_trim (pat l : List Char) (h : hasSub pat (jsTrimL l) = true) :
    hasSub pat l = true := by
  obtain ⟨a, ha⟩ := dropWhile_decomp isWsJs (wsDropEnd l)
  obtain ⟨c, hc⟩ := dropWhile_decomp isWsJs l.reverse
  have hl : l = wsDropEnd l ++ c.reverse := by
    conv_lhs => rw [← List.reverse_reverse l, hc]
    rw [List.reverse_append, wsDropEnd]
  have h1 : hasSub pat (wsDropEnd l) = true := by
    rw [ha]
    exact hasSub_append_left _ _ _ h
  rw [hl]
  exact hasSub_append_right _ _ _ h1

/-! ### C4 — behaviour of the fence-stripping scans -/

theorem startsL_fence_x_nl (x : Char) (rest : List Char) :
    startsL "```".data (x :: '\n' :: rest) = false := by
  show (("```".data.headD ' ' == x) && false) = false
  exact Bool.and_false _

theorem startsL_fence_xy_nl (x y : Char) (rest : List Char) :
    startsL "```".data (x :: y :: '\n' :: rest) = false := by
  show (("```".data.headD ' ' == x) && (("```".data.headD ' ' == y) && false)) = false
  simp

/-- A fence match cannot start inside `c :: cs` and complete across a
following newline: if ` ``` ` does not start at `c :: cs`, it does not
start there after appending `'\n' :: r` either. -/
theorem fence_block (c : Char) (cs r : List Char)
    (h : startsL "```".data (c :: cs) = false) :
    startsL "```".data ((c :: cs) ++ ('\n' :: r)) = false := by
  cases cs with
  | nil => exact startsL_fence_x_nl c r
  | cons c2 cs2 =>
    cases cs2 with
    | nil => exact startsL_fence_xy_nl c c2 r
    | cons c3 cs3 =>
      have hlen : ("```".data : List Char).length ≤ ([c, c2, c3] : List Char).length := by
        rw [show (("```".data : List Char)).length = 3 from rfl]
        simp
      have e1 : startsL "```".data ((c :: c2 :: c3 :: cs3) ++ ('\n' :: r))
          = startsL "```".data [c, c2, c3] := by
        rw [show (c :: c2 :: c3 :: cs3) ++ ('\n' :: r)
            = [c, c2, c3] ++ (cs3 ++ ('\n' :: r)) by simp]
        exact startsL_left _ _ _ hlen
      have e2 : startsL "```".data (c :: c2 :: c3 :: cs3)
          = startsL "```".data [c, c2, c3] := by
        rw [show c :: c2 :: c3 :: cs3 = [c, c2, c3] ++ cs3 by simp]
        exact startsL_left _ _ _ hlen
      rw [e1, ← e2]
      exact h

/-- Appending the closing `"\n```"` to fence-free text creates no
` ```json ` occurrence. -/
theorem noTag_append (s : List Char) (h : hasSub "```".data s = false) :
    hasSub "```json".data (s ++ "\n```".data) = false := by
  induction s with
  | nil => rfl
  | cons c cs ih =>
    obtain ⟨h1, h2⟩ := hasSub_parts _ _ _ h
    have ih2 := ih h2
    show (startsL "```json".data ((c :: cs) ++ "\n```".data)
        || hasSub "```json".data (cs ++ "\n```".data)) = false
    rw [ih2, Bool.or_false]
    cases hx : startsL "```json".data ((c :: cs) ++ "\n```".data) with
    | false => rfl
    | true =>
      have hfe : startsL "```".data ((c :: cs) ++ "\n```".data) = true :=
        startsL_of_append "```".data "json".data _ (by
          rw [show ("```".data ++ "json".data : List Char) = "```json".data from rfl]
          exact hx)
      have hbl : startsL "```".data ((c :: cs) ++ ('\n' :: "```".data)) = false :=
        fence_block c cs _ h1
      rw [show ('\n' :: "```".data : List Char) = "\n```".data from rfl] at hbl
      rw [hbl] at hfe
      simp at hfe

theorem rtgo_nil (f : Nat) : rtgo f [] = [] := by cases f <;> rfl

theorem rfgo_nil (f : Nat) : rfgo f [] = [] := by cases f <;> rfl

/-- The tagged-fence scan leaves text with no ` ```json ` occurrence
unchanged, for every fuel. -/
theorem rtgo_id (fuel : Nat) (l : List Char) (h : hasSub "```json".data l = false) :
    rtgo fuel l = l := by
  induction fuel generalizing l with
  | zero => rfl
  | succ f ih =>
    cases l with
    | nil => rfl
    | cons c cs =>
      obtain ⟨h1, h2⟩ := hasSub_parts _ _ _ h
      have hc1 : startsL ("```json" ++ "\n").data (c :: cs) = false := by
        cases hx : startsL ("```json" ++ "\n").data (c :: cs) with
        | false => rfl
        | true =>
          have := startsL_of_append "```json".data "\n".data _ (by
            rw [show ("```json".data ++ "\n".data : List Char)
                = ("```json" ++ "\n").data from rfl]
            exact hx)
          rw [this] at h1
          simp at h1
      simp only [rtgo]
      rw [if_neg (ne_true_of_eq_false hc1), if_neg (ne_true_of_eq_false h1), ih cs h2]

/-- One step of the tagged-fence scan on input led by ` ```json\n `. -/
theorem rtgo_step (f : Nat) (rest : List Char) :
    rtgo (f + 1) (("```json" ++ "\n").data ++ rest) = rtgo f rest := by
  cases hl : ("```json" ++ "\n").data ++ rest with
  | nil =>
    have := congrArg List.length hl
    simp at this
  | cons c cs =>
    simp only [rtgo]
    rw [if_pos (by rw [← hl]; exact startsL_append_self _ _), ← hl,
      show ((("```json" ++ "\n").data ++ rest).drop 8 : List Char) = rest from by
        rw [show (8 : Nat) = (("```json" ++ "\n").data : List Char).length from rfl]
        exact List.drop_left _ _]

/-- One step of the untagged-fence scan on input led by ` ```\n `. -/
theorem rfgo_step (f : Nat) (rest : List Char) :
    rfgo (f + 1) (("```" ++ "\n").data ++ rest) = rfgo f rest := by
  cases hl : ("```" ++ "\n").data ++ rest with
  | nil =>
    have := congrArg List.length hl
    simp at this
  | cons c cs =>
    simp only [rfgo]
    rw [if_pos (by rw [← hl]; exact startsL_append_self _ _), ← hl,
      show ((("```" ++ "\n").data ++ rest).drop 4 : List Char) = rest from by
        rw [show (4 : Nat) = (("```" ++ "\n").data : List Char).length from rfl]
        exact List.drop_left _ _]

/-- The untagged-fence scan on fence-free text followed by the closing
`"\n```"` removes exactly that closing fence. -/
theorem rfgo_strip (s : List Char) (fuel : Nat) (h : hasSub "```".data s = false)
    (hf : s.length + 4 ≤ fuel) :
    rfgo fuel (s ++ "\n```".data) = s ++ ['\n'] := by
  induction s generalizing fuel with
  | nil =>
    obtain ⟨f, rfl⟩ : ∃ f, fuel = f + 1 + 1 := ⟨fuel - 2, by omega⟩
    show rfgo (f + 1 + 1) ('\n' :: "```".data) = ['\n']
    simp [rfgo, startsL, rfgo_nil]
  | cons c cs ih =>
    obtain ⟨f, rfl⟩ : ∃ f, fuel = f + 1 := ⟨fuel - 1, by omega⟩
    obtain ⟨h1, h2⟩ := hasSub_parts _ _ _ h
    show rfgo (f + 1) (c :: (cs ++ "\n```".data)) = (c :: cs) ++ ['\n']
    simp only [rfgo]
    have hc2 : startsL "```".data (c :: (cs ++ "\n```".data)) = false := by
      have hfb := fence_block c cs ("```".data) h1
      rw [show ((c :: cs) ++ ('\n' :: "```".data) : List Char)
          = c :: (cs ++ "\n```".data) from rfl] at hfb
      exact hfb
    have hc1 : startsL ("```" ++ "\n").data (c :: (cs ++ "\n```".data)) = false := by
      cases hx : startsL ("```" ++ "\n").data (c :: (cs ++ "\n```".data)) with
      | false => rfl
      | true =>
        have := startsL_of_append "```".data "\n".data _ (by
          rw [show ("```".data ++ "\n".data : List Char) = ("```" ++ "\n").data from rfl]
          exact hx)
        rw [this] at hc2
        simp at hc2
    rw [if_neg (ne_true_of_eq_false hc1), if_neg (ne_true_of_eq_false hc2)]
    rw [ih f h2 (by simp at hf ⊢; omega)]
    rfl

/-- The end-anchored fence removal turns a trailing `"\n```"` into a bare
newline. -/
theorem removeEndFence_append (m : List Char) :
    removeEndFence (m ++ "\n```".data) = m ++ ['\n'] := by
  simp only [removeEndFence]
  have hrev : (m ++ "\n```".data).reverse = "```".data ++ ('\n' :: m.reverse) := by
    rw [List.reverse_append]
    rfl
  rw [hrev]
  have e1 : startsL ("```" ++ "\n").data.reverse ("```".data ++ ('\n' :: m.reverse)) = false := rfl
  have e2 : startsL "```".data.reverse ("```".data ++ ('\n' :: m.reverse)) = true := rfl
  rw [if_neg (ne_true_of_eq_false e1), if_pos e2,
    show (3 : Nat) = ("```".data : List Char).length from rfl, List.drop_left]
  simp

/-! ### C4 — trimming and parsing the wrapped outputs -/

theorem jsTrimL_bq_sandwich (mid : List Char) :
    jsTrimL (("`".data ++ mid) ++ "`".data) = ("`".data ++ mid) ++ "`".data := by
  have hend : wsDropEnd (("`".data ++ mid) ++ "`".data) = ("`".data ++ mid) ++ "`".data :=
    wsDropEnd_snoc_nonws ("`".data ++ mid) ("`".data.headD ' ') rfl
  rw [jsTrimL, hend]
  exact wsDropLead_cons_nonws ("`".data.headD ' ') (mid ++ "`".data) rfl

theorem wrapTagged_data (s : String) :
    (wrapTagged s).data = ("```json" ++ "\n").data ++ (s.data ++ "\n```".data) := rfl

theorem wrapUntagged_data (s : String) :
    (wrapUntagged s).data = ("```" ++ "\n").data ++ (s.data ++ "\n```".data) := rfl

theorem jsTrimS_wrapTagged (s : String) : jsTrimS (wrapTagged s) = wrapTagged s := by
  apply strEq
  show jsTrimL (wrapTagged s).data = (wrapTagged s).data
  have hd : (wrapTagged s).data
      = ("`".data ++ ("``json\n".data ++ (s.data ++ "\n``".data))) ++ "`".data := by
    simp [wrapTagged, String.data_append, List.append_assoc]
  rw [hd]
  exact jsTrimL_bq_sandwich _

theorem jsTrimS_wrapUntagged (s : String) : jsTrimS (wrapUntagged s) = wrapUntagged s := by
  apply strEq
  show jsTrimL (wrapUntagged s).data = (wrapUntagged s).data
  have hd : (wrapUntagged s).data
      = ("`".data ++ ("``\n".data ++ (s.data ++ "\n``".data))) ++ "`".data := by
    simp [wrapUntagged, String.data_append, List.append_assoc]
  rw [hd]
  exact jsTrimL_bq_sandwich _

theorem cleanMarkdown_wrapTagged (s : String) (hf : hasSub "```".data s.data = false) :
    cleanMarkdown (wrapTagged s) = s ++ "\n" := by
  simp only [cleanMarkdown]
  rw [jsTrimS_wrapTagged]
  have hstart : strStarts (wrapTagged s) "```json" = true := by
    rw [strStarts, show ((wrapTagged s).data : List Char)
        = "```json".data ++ ("\n".data ++ (s.data ++ "\n```".data)) from rfl]
    exact startsL_append_self _ _
  rw [if_pos hstart]
  have hrtg : removeTagGlobal (wrapTagged s).data = s.data ++ "\n```".data := by
    rw [removeTagGlobal, wrapTagged_data,
      show ((("```json" ++ "\n").data ++ (s.data ++ "\n```".data)).length : Nat)
          = (s.data ++ "\n```".data).length + 7 + 1 from by simp [List.length_append],
      rtgo_step]
    exact rtgo_id _ _ (noTag_append s.data hf)
  rw [hrtg, removeEndFence_append]
  apply strEq
  simp [String.data_append]

theorem cleanMarkdown_wrapUntagged (s : String) (hf : hasSub "```".data s.data = false) :
    cleanMarkdown (wrapUntagged s) = s ++ "\n" := by
  simp only [cleanMarkdown]
  rw [jsTrimS_wrapUntagged]
  have hnotag : strStarts (wrapUntagged s) "```json" = false := by
    rw [strStarts, show ((wrapUntagged s).data : List Char)
        = ("```" ++ "\n").data ++ (s.data ++ "\n```".data) from rfl]
    exact rfl
  have hstart : strStarts (wrapUntagged s) "```" = true := by
    rw [strStarts, show ((wrapUntagged s).data : List Char)
        = "```".data ++ ("\n".data ++ (s.data ++ "\n```".data)) from rfl]
    exact startsL_append_self _ _
  rw [if_neg (ne_true_of_eq_false hnotag), if_pos hstart]
  have hrfg : removeFenceGlobal (wrapUntagged s).data = s.data ++ ['\n'] := by
    rw [removeFenceGlobal, wrapUntagged_data,
      show ((("```" ++ "\n").data ++ (s.data ++ "\n```".data)).length : Nat)
          = (s.data ++ "\n```".data).length + 3 + 1 from by simp [List.length_append],
      rfgo_step]
    exact rfgo_strip s.data _ hf (by simp [List.length_append])
  rw [hrfg]
  apply strEq
  simp [String.data_append]

theorem cleanMarkdown_plain (s : String) (hf : hasSub "```".data s.data = false) :
    cleanMarkdown s = jsTrimS s := by
  have h3 : strStarts (jsTrimS s) "```" = false := by
    rw [strStarts]
    cases hx : startsL "```".data (jsTrimS s).data with
    | false => rfl
    | true =>
      have hx' : startsL "```".data (jsTrimL s.data) = true := hx
      have hh : hasSub "```".data (jsTrimL s.data) = true := by
        cases hjl : jsTrimL s.data with
        | nil => rw [hjl] at hx'; simp [startsL] at hx'
        | cons c cs =>
          rw [hjl] at hx'
          simp [hasSub, hx']
      have hsl := hasSub_trim _ _ hh
      rw [hf] at hsl
      simp at hsl
  have h7 : strStarts (jsTrimS s) "```json" = false := by
    rw [strStarts]
    cases hx : startsL "```json".data (jsTrimS s).data with
    | false => rfl
    | true =>
      have hfe := startsL_of_append "```".data "json".data _ (by
        rw [show ("```".data ++ "json".data : List Char) = "```json".data from rfl]
        exact hx)
      rw [strStarts] at h3
      rw [hfe] at h3
      simp at h3
  simp only [cleanMarkdown]
  rw [if_neg (ne_true_of_eq_false h7), if_neg (ne_true_of_eq_false h3)]

theorem jsonParse_append_nl (s : String) : jsonParse (s ++ "\n") = jsonParse s := by
  simp only [jsonParse]
  rw [show (((s ++ "\n").data) : List Char) = s.data ++ ['\n'] from by
    rw [String.data_append], jsTrimL_append_nl]

theorem jsonParse_trim (s : String) : jsonParse (jsTrimS s) = jsonParse s := by
  simp only [jsonParse]
  rw [show (((jsTrimS s).data) : List Char) = jsTrimL s.data from rfl, jsTrimL_idem]

/-- C4, counterexample: the well-formed model output
`{"summary":"```"}` — a schema-conformant JSON object whose summary text
contains a fence marker.  Parsing it directly yields `summary = "```"`,
but wrapping it in an untagged fence makes the global
`.replace(/```\n?/g, "")` also delete the inner marker, so the wrapped
and unwrapped outputs parse to different findings records. -/
theorem c4_counterexample :
    (jsonParse "\x7b\"summary\":\"```\"\x7d").isSome = true ∧
    parseGeminiOutput (wrapUntagged "\x7b\"summary\":\"```\"\x7d")
      ≠ parseGeminiOutput "\x7b\"summary\":\"```\"\x7d" := by
  refine ⟨rfl, ?_⟩
  decide

/-- C4, amended: for every well-formed structured model output whose text
contains no fence marker ` ``` ` of its own, wrapping it in a fenced code
block (tagged `json` or untagged) before parsing yields the same findings
record as parsing the unwrapped output; outputs that do contain ` ``` `
(e.g. inside a JSON string value) are corrupted by the global
fence-stripping replaces. -/
theorem c4_amended (s : String)
    (hf : hasSub "```".data s.data = false)
    (hp : (jsonParse s).isSome = true) :
    parseGeminiOutput (wrapTagged s) = parseGeminiOutput s ∧
    parseGeminiOutput (wrapUntagged s) = parseGeminiOutput s := by
  obtain ⟨j, hj⟩ := Option.isSome_iff_exists.mp hp
  have hT : jsonParse (cleanMarkdown (wrapTagged s)) = some j := by
    rw [cleanMarkdown_wrapTagged s hf, jsonParse_append_nl, hj]
  have hU : jsonParse (cleanMarkdown (wrapUntagged s)) = some j := by
    rw [cleanMarkdown_wrapUntagged s hf, jsonParse_append_nl, hj]
  have hS : jsonParse (cleanMarkdown s) = some j := by
    rw [cleanMarkdown_plain s hf, jsonParse_trim, hj]
  constructor
  · simp only [parseGeminiOutput, hT, hS]
  · simp only [parseGeminiOutput, hU, hS]

/-- C4, witness: a concrete fence-free well-formed output, wrapped both
ways. -/
theorem c4_amended_witness :
    parseGeminiOutput (wrapTagged "\x7b\"summary\":\"ok\"\x7d")
      = parseGeminiOutput "\x7b\"summary\":\"ok\"\x7d" ∧
    parseGeminiOutput (wrapUntagged "\x7b\"summary\":\"ok\"\x7d")
      = parseGeminiOutput "\x7b\"summary\":\"ok\"\x7d" :=
  c4_amended "\x7b\"summary\":\"ok\"\x7d" rfl rfl
